import Mathlib

/-!
Shallow embedding of the attachment-ingestion core of `hangouts-migrate`:
the fingerprinting function (`util.HashForKey`), the attachment store
(`attachment.Mapper` and its atomic `Writer`), the bounded-concurrency
image downloader (`parse.ImageDownloader`) and the ordered bulk-import
writer (`mattermost.BulkImportWriter`), together with theorems checking
the specification's claims against this embedding.
-/

set_option maxRecDepth 40000

namespace HangoutsMigrate

/-! ## SHA-256 over byte lists, modelling Go `crypto/sha256.Sum256` -/

/-- Truncation to a 32-bit word, the wrap-around of Go `uint32` arithmetic. -/
def w32 (n : Nat) : Nat := n % 4294967296

/-- Right rotation of a 32-bit word by `n` bits. -/
def rotr (n w : Nat) : Nat := w32 ((w >>> n) ||| (w <<< (32 - n)))

/-- SHA-256 choice function. -/
def shaCh (x y z : Nat) : Nat := (x &&& y) ^^^ ((x ^^^ 4294967295) &&& z)

/-- SHA-256 majority function. -/
def shaMaj (x y z : Nat) : Nat := (x &&& y) ^^^ (x &&& z) ^^^ (y &&& z)

/-- SHA-256 big sigma 0. -/
def bigSigma0 (x : Nat) : Nat := rotr 2 x ^^^ rotr 13 x ^^^ rotr 22 x

/-- SHA-256 big sigma 1. -/
def bigSigma1 (x : Nat) : Nat := rotr 6 x ^^^ rotr 11 x ^^^ rotr 25 x

/-- SHA-256 small sigma 0. -/
def smallSigma0 (x : Nat) : Nat := rotr 7 x ^^^ rotr 18 x ^^^ (x >>> 3)

/-- SHA-256 small sigma 1. -/
def smallSigma1 (x : Nat) : Nat := rotr 17 x ^^^ rotr 19 x ^^^ (x >>> 10)

/-- SHA-256 round constants. -/
def shaK : List Nat :=
  [1116352408, 1899447441, 3049323471, 3921009573, 961987163,
   1508970993, 2453635748, 2870763221, 3624381080, 310598401,
   607225278, 1426881987, 1925078388, 2162078206, 2614888103,
   3248222580, 3835390401, 4022224774, 264347078, 604807628,
   770255983, 1249150122, 1555081692, 1996064986, 2554220882,
   2821834349, 2952996808, 3210313671, 3336571891, 3584528711,
   113926993, 338241895, 666307205, 773529912, 1294757372,
   1396182291, 1695183700, 1986661051, 2177026350, 2456956037,
   2730485921, 2820302411, 3259730800, 3345764771, 3516065817,
   3600352804, 4094571909, 275423344, 430227734, 506948616,
   659060556, 883997877, 958139571, 1322822218, 1537002063,
   1747873779, 1955562222, 2024104815, 2227730452, 2361852424,
   2428436474, 2756734187, 3204031479, 3329325298]

/-- The eight working registers (also used for the chaining hash values). -/
structure SHAState where
  h0 : Nat
  h1 : Nat
  h2 : Nat
  h3 : Nat
  h4 : Nat
  h5 : Nat
  h6 : Nat
  h7 : Nat
deriving Repr, DecidableEq

/-- SHA-256 initial hash value. -/
def initState : SHAState :=
  ⟨1779033703, 3144134277, 1013904242, 2773480762,
   1359893119, 2600822924, 528734635, 1541459225⟩

/-- Extend sixteen message words into the 64-entry message schedule. -/
def schedule (block : List Nat) : List Nat :=
  (List.range 64).foldl
    (fun ws i =>
      if i < 16 then ws ++ [block.getD i 0]
      else
        ws ++ [w32 (smallSigma1 (ws.getD (i - 2) 0) + ws.getD (i - 7) 0 +
                    smallSigma0 (ws.getD (i - 15) 0) + ws.getD (i - 16) 0)])
    []

/-- One SHA-256 round on the registers, given the pair (schedule word, constant). -/
def roundStep (r : SHAState) (wk : Nat × Nat) : SHAState :=
  let t1 := w32 (r.h7 + bigSigma1 r.h4 + shaCh r.h4 r.h5 r.h6 + wk.2 + wk.1)
  let t2 := w32 (bigSigma0 r.h0 + shaMaj r.h0 r.h1 r.h2)
  ⟨w32 (t1 + t2), r.h0, r.h1, r.h2, w32 (r.h3 + t1), r.h4, r.h5, r.h6⟩

/-- Compress one 16-word block into the chaining state. -/
def compressBlock (st : SHAState) (block : List Nat) : SHAState :=
  let r := (List.zip (schedule block) shaK).foldl roundStep st
  ⟨w32 (st.h0 + r.h0), w32 (st.h1 + r.h1), w32 (st.h2 + r.h2), w32 (st.h3 + r.h3),
   w32 (st.h4 + r.h4), w32 (st.h5 + r.h5), w32 (st.h6 + r.h6), w32 (st.h7 + r.h7)⟩

/-- Big-endian byte rendering of a number, `k` bytes wide. -/
def beBytes (k n : Nat) : List Nat :=
  match k with
  | 0 => []
  | k + 1 => beBytes k (n >>> 8) ++ [n &&& 255]

/-- SHA-256 message padding: `0x80`, zeros to 56 mod 64, then the bit length. -/
def padMessage (msg : List Nat) : List Nat :=
  let len := msg.length
  let zeros := (56 + 64 - (len + 1) % 64) % 64
  msg ++ [128] ++ List.replicate zeros 0 ++ beBytes 8 (len * 8)

/-- Split a byte list into chunks of 64 bytes, with fuel for structural recursion. -/
def chunks64Aux : Nat → List Nat → List (List Nat)
  | 0, _ => []
  | _, [] => []
  | fuel + 1, a :: rest => ((a :: rest).take 64) :: chunks64Aux fuel ((a :: rest).drop 64)

/-- Split a byte list into chunks of 64 bytes. -/
def chunks64 (l : List Nat) : List (List Nat) := chunks64Aux l.length l

/-- Combine bytes into big-endian 32-bit words. -/
def bytesToWords : List Nat → List Nat
  | x0 :: x1 :: x2 :: x3 :: rest =>
      (x3 ||| (x2 <<< 8) ||| (x1 <<< 16) ||| (x0 <<< 24)) :: bytesToWords rest
  | _ => []

/-- SHA-256 digest of a byte list, as a 32-byte list. -/
def sha256Bytes (msg : List Nat) : List Nat :=
  let fin := (chunks64 (padMessage msg)).foldl
    (fun st blk => compressBlock st (bytesToWords blk)) initState
  beBytes 4 fin.h0 ++ beBytes 4 fin.h1 ++ beBytes 4 fin.h2 ++ beBytes 4 fin.h3 ++
  beBytes 4 fin.h4 ++ beBytes 4 fin.h5 ++ beBytes 4 fin.h6 ++ beBytes 4 fin.h7

/-- The lowercase hexadecimal alphabet. -/
def hexChars : List Char :=
  ['0', '1', '2', '3'] ++ ['4', '5', '6', '7'] ++
  ['8', '9', 'a', 'b'] ++ ['c', 'd', 'e', 'f']

/-- Two lowercase hex characters for one byte. -/
def byteToHex (b : Nat) : List Char :=
  [hexChars.getD ((b >>> 4) % 16) '0', hexChars.getD (b % 16) '0']

/-- Lowercase hex encoding of a byte list, modelling Go `hex.EncodeToString`. -/
def hexEncode (bs : List Nat) : List Char := (bs.map byteToHex).flatten

/-- UTF-8 encoding of one character, modelling Go's string-to-byte conversion. -/
def utf8EncodeChar (c : Char) : List Nat :=
  let n := c.toNat
  if n < 128 then [n]
  else if n < 2048 then [192 ||| (n >>> 6), 128 ||| (n &&& 63)]
  else if n < 65536 then
    [224 ||| (n >>> 12), 128 ||| ((n >>> 6) &&& 63), 128 ||| (n &&& 63)]
  else
    [240 ||| (n >>> 18), 128 ||| ((n >>> 12) &&& 63), 128 ||| ((n >>> 6) &&& 63),
     128 ||| (n &&& 63)]

/-- The UTF-8 bytes of a string, modelling Go `[]byte(v)`. -/
def strBytes (s : String) : List Nat := (s.data.map utf8EncodeChar).flatten

/-- Model of `util.HashForKey`: hex-encoded SHA-256 of the key's bytes. -/
def HashForKey (v : String) : String := ⟨hexEncode (sha256Bytes (strBytes v))⟩

/-! ## Association lists, modelling the `sync.Map` index and the filesystem -/

/-- Lookup in an association list, modelling `sync.Map.Load`. -/
def alookup {α : Type} (k : String) : List (String × α) → Option α
  | [] => none
  | (k2, v) :: rest => if k2 = k then some v else alookup k rest

/-- Store that overwrites an existing binding, modelling `sync.Map.Store`. -/
def astore {α : Type} (l : List (String × α)) (k : String) (v : α) : List (String × α) :=
  if (alookup k l).isSome then l.map (fun kv => if kv.1 = k then (k, v) else kv)
  else l ++ [(k, v)]

/-- Result of `os.Stat` on a path as the code distinguishes it: the file is
there, `os.IsNotExist` holds, or some other stat error occurred. -/
inductive StatRes
  | found
  | missing
  | errOther
deriving Repr, DecidableEq

/-! ## `attachment.Mapper` (src/unnamed/part_000) -/

/-- State of `attachment.Mapper`: base path, overwrite flag and the
key-to-path index (the `sync.Map` as an association list). -/
structure Mapper where
  BasePath : String
  Overwrite : Bool
  attachments : List (String × String)
deriving Repr, DecidableEq

/-- Model of Go `filepath.Join basePath name` for a non-empty base path. -/
def joinPath (a b : String) : String := a ++ "/" ++ b

/-- Model of `extensionForMediaType`: the fixed table plus the
`image/` and `video/` prefix-stripping fallback. -/
def extensionForMediaType (mt : String) : String :=
  if mt = "image/jpeg" then "jpg"
  else if mt = "image/png" then "png"
  else if mt = "image/gif" then "gif"
  else if "image/".isPrefixOf mt then (mt.drop 6)
  else if "video/".isPrefixOf mt then (mt.drop 6)
  else ""

/-- The destination file name `HashForKey key` with an optional
`.ext` suffix, as computed inside `Mapper.OpenWriter`. -/
def destName (key mt : String) : String :=
  let name := HashForKey key
  let ext := extensionForMediaType mt
  if ext = "" then name else name ++ "." ++ ext

/-- Errors `Mapper.OpenWriter` can return: no base path configured, the
`Exists` sentinel, or a non-not-exist stat failure. -/
inductive OpenErr
  | noBasePath
  | alreadyExists
  | statFailed
deriving Repr, DecidableEq

/-- Model of `Mapper.OpenWriter`: fails with no base path; computes the
destination path; claims the key with `LoadOrStore` (insert-if-absent)
returning `Exists` if already claimed; then, unless `Overwrite` is set,
stats the destination, returning `Exists` if the file is present and an
error on other stat failures; otherwise hands back a writer bound to the
path (represented by the path itself; creating the temporary file is
modelled as succeeding). `stat` is the ambient filesystem. -/
def Mapper.OpenWriter (stat : String → StatRes) (m : Mapper) (key mediaType : String) :
    Except OpenErr String × Mapper :=
  if m.BasePath = "" then (.error .noBasePath, m)
  else
    let path := joinPath m.BasePath (destName key mediaType)
    match alookup key m.attachments with
    | some _ => (.error .alreadyExists, m)
    | none =>
      let m2 : Mapper := { m with attachments := m.attachments ++ [(key, path)] }
      if m.Overwrite then (.ok path, m2)
      else
        match stat path with
        | .found => (.error .alreadyExists, m2)
        | .errOther => (.error .statFailed, m2)
        | .missing => (.ok path, m2)

/-- Model of `Mapper.GetPath`: the recorded path, or `""` if unmapped. -/
def Mapper.GetPath (m : Mapper) (key : String) : String :=
  match alookup key m.attachments with
  | some v => v
  | none => ""

/-- Model of `Mapper.Mapped`. -/
def Mapper.Mapped (m : Mapper) (key : String) : Bool :=
  (alookup key m.attachments).isSome

/-- True when the characters contain no path separator; a `*` glob
wildcard never matches across separators. -/
def sepFree (cs : List Char) : Bool := !(cs.contains '/')

/-- Whether path `p` matches the glob `joinPath base hash ++ "*"`. -/
def isGlobMatch (base hash p : String) : Bool :=
  let pre := (joinPath base hash).data
  pre.isPrefixOf p.data && sepFree (p.data.drop pre.length)

/-- The glob matches for `hash ++ "*"` under `base` among the existing
files `fs`, modelling `filepath.Glob`. -/
def globMatches (fs : List String) (base hash : String) : List String :=
  fs.filter (fun p => isGlobMatch base hash p)

/-- The only scan failure the model can produce: `NotFound` (the glob
pattern is pure lowercase hex, so `filepath.Glob`'s sole error case,
a malformed pattern, cannot occur). -/
inductive ScanErr
  | notFound
deriving Repr, DecidableEq

/-- Model of `Mapper.ScanPathForKey`: return the recorded path when
`GetPath` is non-empty; `NotFound` when no base path is configured;
otherwise glob for `HashForKey key ++ "*"` and, on a match, record the
first match with `LoadOrStore` and return the stored value; else
`NotFound`. `fs` is the list of existing files. -/
def Mapper.ScanPathForKey (fs : List String) (m : Mapper) (key : String) :
    Except ScanErr String × Mapper :=
  let path := m.GetPath key
  if path ≠ "" then (.ok path, m)
  else if m.BasePath = "" then (.error .notFound, m)
  else
    match globMatches fs m.BasePath (HashForKey key) with
    | [] => (.error .notFound, m)
    | p :: _ =>
      match alookup key m.attachments with
      | some v => (.ok v, m)
      | none => (.ok p, { m with attachments := m.attachments ++ [(key, p)] })

/-- Model of `Mapper.LoadFromJSON`: the decoded snapshot document is the
key-to-path association list it encodes. Entries whose path stats as
not-exist are discarded; any other stat error aborts the load; surviving
entries are merged with `sync.Map.Store`. -/
def Mapper.LoadFromJSON (stat : String → StatRes) (m : Mapper) :
    List (String × String) → Except Unit Mapper
  | [] => .ok m
  | (k, v) :: rest =>
    match stat v with
    | .missing => Mapper.LoadFromJSON stat m rest
    | .errOther => .error ()
    | .found => Mapper.LoadFromJSON stat { m with attachments := astore m.attachments k v } rest

/-- Model of `Mapper.SaveToJSON`: the snapshot document holds exactly the
index entries (JSON encode/decode of a string map is the identity on the
mapping it carries). -/
def Mapper.SaveToJSON (m : Mapper) : List (String × String) := m.attachments

/-! ## `attachment.Writer` (the atomic file writer) -/

/-- Model of `attachment.Writer`: the destination path and the bytes
accumulated in the temporary file. -/
structure Writer where
  destPath : String
  tempBytes : List Nat
deriving Repr, DecidableEq

/-- Model of `Writer.Write`: append bytes to the temporary file. -/
def Writer.write (w : Writer) (data : List Nat) : Writer :=
  { w with tempBytes := w.tempBytes ++ data }

/-- Model of `Writer.Close` on the filesystem `files` (destination path to
content): the temporary file is closed and renamed onto the destination,
so whatever the temp file holds becomes the destination's content; the
temporary name is gone afterwards in every branch. -/
def Writer.close (w : Writer) (files : List (String × List Nat)) : List (String × List Nat) :=
  astore files w.destPath w.tempBytes

/-! ## `parse.ImageDownloader` (src/parse/images.go) -/

/-- The part of an HTTP response the downloader inspects, plus the fate of
the body copy: `bodyOk` tells whether `io.CopyBuffer` completes without
error, and `body` is what it delivers to the writer before returning. -/
structure Resp where
  statusCode : Nat
  mediaType : String
  bodyOk : Bool
  body : List Nat
deriving Repr, DecidableEq

/-- Failure modes of one `tryDownloadURL` attempt. -/
inductive DlErr
  | netError
  | badStatus
  | htmlPage
  | openFailed
  | copyFailed
deriving Repr, DecidableEq

/-- Store plus filesystem state threaded through a fetch attempt. -/
structure DlState where
  mapper : Mapper
  files : List (String × List Nat)
deriving Repr, DecidableEq

/-- Stat derived from the modelled filesystem. -/
def fsStat (files : List (String × List Nat)) (p : String) : StatRes :=
  if (alookup p files).isSome then .found else .missing

/-- The existing paths of the modelled filesystem. -/
def fsPaths (files : List (String × List Nat)) : List String := files.map Prod.fst

/-- Model of `ImageDownloader.tryDownloadURL` for one URL whose (retried)
request resolves to `resp` (`none` is a request/network failure). A non-OK
status or a `text/html` media type fails without touching state. Then
`OpenWriter` runs: its `Exists` error is absorbed as success; other errors
fail. With a writer in hand the body is copied into the temp file and the
writer is closed — on a copy error the close happens through the
function's `defer`, which still renames the temp file onto the
destination, so the delivered bytes land at `path` in both branches. -/
def tryDownloadURL (resp : Option Resp) (st : DlState) (key : String) :
    Option DlErr × DlState :=
  match resp with
  | none => (some .netError, st)
  | some r =>
    if r.statusCode ≠ 200 then (some .badStatus, st)
    else if r.mediaType = "text/html" then (some .htmlPage, st)
    else
      match Mapper.OpenWriter (fsStat st.files) st.mapper key r.mediaType with
      | (.error .alreadyExists, m2) => (none, { st with mapper := m2 })
      | (.error _, m2) => (some .openFailed, { st with mapper := m2 })
      | (.ok path, m2) =>
        if r.bodyOk then
          (none, { mapper := m2, files := (Writer.mk path r.body).close st.files })
        else
          (some .copyFailed, { mapper := m2, files := (Writer.mk path r.body).close st.files })

/-- Model of `ImageDownloader.downloadURL`: try the candidate URLs in
order, stopping at the first success; when every candidate fails the item
is abandoned (the error is only logged). Returns whether some candidate
succeeded. `resps` gives each URL's resolved response. -/
def downloadURL (resps : String → Option Resp) (st : DlState) (key : String) :
    List String → Bool × DlState
  | [] => (false, st)
  | u :: rest =>
    match tryDownloadURL (resps u) st key with
    | (none, st2) => (true, st2)
    | (some _, st2) => downloadURL resps st2 key rest

/-- State of `ImageDownloader`: the store, the filesystem, the semaphore
capacity (`Concurrency`) and occupancy, and the scheduled fetch work. -/
structure ImageDownloader where
  mapper : Mapper
  files : List (String × List Nat)
  concurrency : Nat
  inFlight : Nat
  pending : List (String × List String)
deriving Repr, DecidableEq

/-- Model of `ImageDownloader.Add`: scan for the key — on a hit, return
`false` with nothing scheduled; otherwise, with no candidate URLs, return
`false` with nothing scheduled; otherwise acquire a semaphore slot and
schedule the fetch, returning `true`. `none` models `sem.Acquire` blocking
because every slot is held: the call cannot complete until a slot frees. -/
def ImageDownloader.Add (d : ImageDownloader) (key : String) (urls : List String) :
    Option (Bool × ImageDownloader) :=
  match Mapper.ScanPathForKey (fsPaths d.files) d.mapper key with
  | (.ok _, m2) => some (false, { d with mapper := m2 })
  | (.error _, m2) =>
    if urls = [] then some (false, { d with mapper := m2 })
    else if d.inFlight < d.concurrency then
      some (true, { d with mapper := m2, inFlight := d.inFlight + 1,
                           pending := d.pending ++ [(key, urls)] })
    else none

/-! ## `mattermost.BulkImportWriter` (src/import/mattermost/writer.go) -/

/-- The record kinds that implement `BulkImportEntry.addToTypedContainer`. -/
inductive EntryKind
  | version
  | team
  | channel
  | user
  | post
deriving Repr, DecidableEq

/-- The `type` tag each kind puts in its typed container. -/
def kindType : EntryKind → String
  | .version => "version"
  | .team => "team"
  | .channel => "channel"
  | .user => "user"
  | .post => "post"

/-- Model of the `containerOrder` slice from convert.go. -/
def containerOrder : List String :=
  ["version", "scheme", "team", "channel", "user", "post", "direct_channel", "direct_post"]

/-- Index search helper for building `containerOrderMap`. -/
def orderIdxAux (s : String) : List String → Nat → Option Nat
  | [], _ => none
  | t :: rest, i => if t = s then some i else orderIdxAux s rest (i + 1)

/-- Model of the `containerOrderMap` lookup as `Add` performs it:
`idx, _ := containerOrderMap[tc.Type]` yields the map value, or Go's zero
value 0 when the type tag is absent. -/
def containerOrderMap (s : String) : Nat := (orderIdxAux s containerOrder 0).getD 0

/-- State of `BulkImportWriter`: the running `lastIndex` and the JSONL
lines emitted so far, each line carried as the typed container's kind. -/
structure BulkImportWriter where
  lastIndex : Nat
  lines : List EntryKind
deriving Repr, DecidableEq

/-- Model of `NewWriter`: `lastIndex` starts at Go's zero value 0. -/
def NewWriter : BulkImportWriter := ⟨0, []⟩

/-- Model of `BulkImportWriter.Add`: resolve the entry's index; when it is
before `lastIndex`, fail with the pair of conflicting kind names
(`containerOrder[idx]`, `containerOrder[lastIndex]`) and leave the stream
untouched; otherwise advance `lastIndex` and append one line (encoding
to the output stream is modelled as succeeding). -/
def BulkImportWriter.Add (biw : BulkImportWriter) (e : EntryKind) :
    Option (String × String) × BulkImportWriter :=
  let idx := containerOrderMap (kindType e)
  if idx < biw.lastIndex then
    (some (containerOrder.getD idx "", containerOrder.getD biw.lastIndex ""), biw)
  else
    (none, { lastIndex := idx, lines := biw.lines ++ [e] })

/-- Fold a sequence of entries through `BulkImportWriter.Add`. -/
def BulkImportWriter.addAll (biw : BulkImportWriter) : List EntryKind → BulkImportWriter
  | [] => biw
  | e :: rest => ((biw.Add e).2).addAll rest

/-! ## Concrete instances used by witnesses and counterexamples -/

/-- A store whose index already holds two keys. -/
def mW : Mapper := ⟨"base", false, [("k1", "p1"), ("k2", "p2")]⟩

/-- A fresh store with the same configuration. -/
def freshW : Mapper := ⟨"base", false, []⟩

/-- A filesystem where only `p1` still exists. -/
def statW : String → StatRes := fun p => if p = "p1" then .found else .missing

/-- One content-address-named file on disk for the scan witness. -/
def fs5 : List String := [joinPath "base" (HashForKey "k5" ++ ".jpg")]

/-- An empty store for the scan witness. -/
def m5 : Mapper := ⟨"base", false, []⟩

/-- The ordinal of an entry kind under `containerOrderMap`. -/
def entryOrd (e : EntryKind) : Nat := containerOrderMap (kindType e)

/-- An HTTP response whose copy to the writer fails midway, for the
partial-write counterexample. -/
def bugResp : Resp := ⟨200, "image/png", false, [1, 2, 3]⟩

/-- An empty store and filesystem for the partial-write counterexample. -/
def bugState : DlState := ⟨⟨"att", false, []⟩, []⟩

/-- The destination path the downloader computes in the counterexample. -/
def bugDest : String := joinPath "att" (destName "photokey" "image/png")

/-- Responses that always fail with a 404 status. -/
def resps9 : String → Option Resp := fun _ => some ⟨404, "", true, []⟩

/-- A downloader over an empty store with five slots. -/
def d9 : ImageDownloader := ⟨⟨"base", false, []⟩, [], 5, 0, []⟩

/-- A response that resolves to a failure before the store is consulted:
a request error, a non-200 status, or an HTML page. -/
def preOpenFailure : Option Resp → Bool
  | none => true
  | some r => decide (r.statusCode ≠ 200) || decide (r.mediaType = "text/html")

/-- A fetch state whose store already maps the key of the C4 witness. -/
def st4 : DlState := ⟨⟨"base", false, [("k", "base/x")]⟩, []⟩

/-- A successful PNG response for the C4 witness. -/
def r4 : Resp := ⟨200, "image/png", true, [7]⟩

/-! ## Supporting lemmas -/

theorem beBytes_length (k : Nat) : ∀ n, (beBytes k n).length = k := by
  induction k with
  | zero => intro n; rfl
  | succ k ih => intro n; simp [beBytes, ih]

theorem sha256Bytes_length (msg : List Nat) : (sha256Bytes msg).length = 32 := by
  simp [sha256Bytes, beBytes_length]

theorem hexEncode_length (bs : List Nat) : (hexEncode bs).length = 2 * bs.length := by
  induction bs with
  | nil => rfl
  | cons b rest ih =>
    simp only [hexEncode, List.map_cons, List.flatten_cons, List.length_append,
      List.length_cons, byteToHex] at *
    simp only [List.length_nil, List.length_cons] at *
    omega

theorem getD_mem {α : Type} (l : List α) (i : Nat) (d : α) (hd : d ∈ l) :
    l.getD i d ∈ l := by
  rw [List.getD_eq_getElem?_getD]
  cases h : l[i]? with
  | none => simpa [h] using hd
  | some a => simpa [h] using List.getElem?_mem h

theorem hexEncode_mem (bs : List Nat) : ∀ c ∈ hexEncode bs, c ∈ hexChars := by
  intro c hc
  rw [hexEncode, List.mem_flatten] at hc
  obtain ⟨l, hl, hcl⟩ := hc
  rw [List.mem_map] at hl
  obtain ⟨b, _, rfl⟩ := hl
  simp only [byteToHex, List.mem_cons, List.not_mem_nil, or_false] at hcl
  have h0 : '0' ∈ hexChars := by decide
  rcases hcl with rfl | rfl
  · exact getD_mem _ _ _ h0
  · exact getD_mem _ _ _ h0

/-! ## Claim theorems -/

/-- C7: `HashForKey` is a pure, deterministic total function; equal keys
give equal digests; the result is always a 64-character string over the
lowercase hexadecimal alphabet (the hex rendering of the 256-bit SHA-256
digest of the key's bytes), matching the FIPS 180-4 test vectors for the
empty string and `"abc"`. -/
theorem HashForKey_spec :
    (∀ v w : String, v = w → HashForKey v = HashForKey w) ∧
    (∀ v : String, (HashForKey v).length = 64) ∧
    (∀ v : String, ∀ c ∈ (HashForKey v).data, c ∈ hexChars) ∧
    HashForKey "" = "e3b0c44298fc1c149afbf4c8996fb92427ae41e4649b934ca495991b7852b855" ∧
    HashForKey "abc" = "ba7816bf8f01cfea414140de5dae2223b00361a396177a9cb410ff61f20015ad" := by
  refine ⟨fun v w h => h ▸ rfl, fun v => ?_, fun v => ?_, by decide, by decide⟩
  · show (hexEncode (sha256Bytes (strBytes v))).length = 64
    rw [hexEncode_length, sha256Bytes_length]
  · exact hexEncode_mem _

theorem HashForKey_spec_witness :
    HashForKey "a" = HashForKey "a" ∧ (HashForKey "k").length = 64 ∧ 'e' ∈ hexChars :=
  ⟨HashForKey_spec.1 "a" "a" rfl, HashForKey_spec.2.1 "k",
   HashForKey_spec.2.2.1 "" 'e' (by decide)⟩

theorem alookup_append {α : Type} (k : String) (l1 l2 : List (String × α)) :
    alookup k (l1 ++ l2) =
      match alookup k l1 with
      | some v => some v
      | none => alookup k l2 := by
  induction l1 with
  | nil => simp [alookup]
  | cons kv rest ih =>
    obtain ⟨k2, v⟩ := kv
    by_cases h : k2 = k
    · simp [alookup, h]
    · simp [alookup, h, ih]

theorem alookup_append_self {α : Type} (k : String) (l : List (String × α)) (v : α)
    (h : alookup k l = none) : alookup k (l ++ [(k, v)]) = some v := by
  rw [alookup_append, h]
  simp [alookup]

/-- After any `OpenWriter` call on a store with a base path, the key is
claimed in the index, and the configuration fields are untouched. -/
theorem OpenWriter_claims (stat : String → StatRes) (m : Mapper) (k mt : String)
    (hbase : m.BasePath ≠ "") :
    Mapper.Mapped (Mapper.OpenWriter stat m k mt).2 k = true ∧
    (Mapper.OpenWriter stat m k mt).2.BasePath = m.BasePath := by
  unfold Mapper.OpenWriter Mapper.Mapped
  simp only [if_neg hbase]
  cases h : alookup k m.attachments with
  | some v => simp [h]
  | none =>
    have h2 := alookup_append_self k m.attachments
      (joinPath m.BasePath (destName k mt)) h
    by_cases hov : m.Overwrite
    · simp [hov, h2]
    · cases hs : stat (joinPath m.BasePath (destName k mt)) <;> simp [hov, hs, h2]

/-- On a store whose key is already claimed, `OpenWriter` fails with the
`Exists` sentinel and leaves the state untouched. -/
theorem OpenWriter_mapped_fails (stat : String → StatRes) (m : Mapper) (k mt : String)
    (hbase : m.BasePath ≠ "") (hmapped : Mapper.Mapped m k = true) :
    (Mapper.OpenWriter stat m k mt).1 = Except.error .alreadyExists ∧
    (Mapper.OpenWriter stat m k mt).2 = m := by
  unfold Mapper.Mapped at hmapped
  unfold Mapper.OpenWriter
  cases h : alookup k m.attachments with
  | some v => simp [if_neg hbase, h]
  | none => rw [h] at hmapped; simp at hmapped

/-- C2: for every key, a second `OpenWriter` (reserveWrite) call with the
same key always fails with the `Exists` (AlreadyExists) sentinel: the key
is claimed via insert-if-absent before any filesystem access, so whatever
the first call's outcome, the second caller gets an error rather than a
writer, and the store state it leaves is unchanged. The index step is the
atomic `sync.Map.LoadOrStore`, so the sequential composition here also
covers two concurrent callers, whose claims serialize at that step. -/
theorem OpenWriter_second_call_alreadyExists
    (stat1 stat2 : String → StatRes) (m : Mapper) (k mt1 mt2 : String)
    (hbase : m.BasePath ≠ "") :
    (Mapper.OpenWriter stat2 (Mapper.OpenWriter stat1 m k mt1).2 k mt2).1 =
      Except.error .alreadyExists ∧
    (Mapper.OpenWriter stat2 (Mapper.OpenWriter stat1 m k mt1).2 k mt2).2 =
      (Mapper.OpenWriter stat1 m k mt1).2 := by
  obtain ⟨hm, hb⟩ := OpenWriter_claims stat1 m k mt1 hbase
  exact OpenWriter_mapped_fails stat2 _ k mt2 (hb ▸ hbase) hm

theorem OpenWriter_second_call_alreadyExists_witness :
    (Mapper.OpenWriter (fun _ => StatRes.missing)
      (Mapper.OpenWriter (fun _ => StatRes.missing) ⟨"base", false, []⟩ "k" "image/png").2
      "k" "image/png").1 = Except.error .alreadyExists :=
  (OpenWriter_second_call_alreadyExists (fun _ => StatRes.missing)
    (fun _ => StatRes.missing) ⟨"base", false, []⟩ "k" "image/png" "image/png"
    (by decide)).1

/-- C10: when the base path is non-empty and the key is unmapped,
`OpenWriter` records the key's computed destination path in the index
before the filesystem check, and the mapping survives the error paths:
after `Exists` from overwrite protection (destination file present) or
after a stat failure, `Mapped` is true and `GetPath` returns the computed
path even though nothing was written. -/
theorem OpenWriter_error_paths_keep_mapping
    (stat : String → StatRes) (m : Mapper) (k mt : String)
    (hbase : m.BasePath ≠ "") (hnew : alookup k m.attachments = none)
    (hover : m.Overwrite = false) :
    Mapper.Mapped (Mapper.OpenWriter stat m k mt).2 k = true ∧
    Mapper.GetPath (Mapper.OpenWriter stat m k mt).2 k =
      joinPath m.BasePath (destName k mt) ∧
    (stat (joinPath m.BasePath (destName k mt)) = .found →
      (Mapper.OpenWriter stat m k mt).1 = Except.error .alreadyExists) ∧
    (stat (joinPath m.BasePath (destName k mt)) = .errOther →
      (Mapper.OpenWriter stat m k mt).1 = Except.error .statFailed) := by
  have h2 := alookup_append_self k m.attachments
    (joinPath m.BasePath (destName k mt)) hnew
  unfold Mapper.OpenWriter Mapper.Mapped Mapper.GetPath
  simp only [if_neg hbase, hnew]
  cases hs : stat (joinPath m.BasePath (destName k mt)) <;>
    simp [hover, hs, h2]

/-- C5: `ScanPathForKey` returns the recorded path when the key is mapped;
returns `NotFound` when unmapped with no base directory configured;
otherwise globs for files named `HashForKey key` with any suffix — the
bare digest and every digest-plus-extension name match the glob — and on a
match records the key-to-path mapping lazily and returns that path, while
an empty match list yields `NotFound`. -/
theorem ScanPathForKey_spec (fs : List String) (m : Mapper) (key : String) :
    (∀ p, alookup key m.attachments = some p → p ≠ "" →
      Mapper.ScanPathForKey fs m key = (.ok p, m)) ∧
    (alookup key m.attachments = none → m.BasePath = "" →
      Mapper.ScanPathForKey fs m key = (.error .notFound, m)) ∧
    (alookup key m.attachments = none → m.BasePath ≠ "" →
      globMatches fs m.BasePath (HashForKey key) = [] →
      Mapper.ScanPathForKey fs m key = (.error .notFound, m)) ∧
    (∀ p rest, alookup key m.attachments = none → m.BasePath ≠ "" →
      globMatches fs m.BasePath (HashForKey key) = p :: rest →
      (Mapper.ScanPathForKey fs m key).1 = .ok p ∧
      alookup key (Mapper.ScanPathForKey fs m key).2.attachments = some p) ∧
    (∀ sfx : String, sepFree sfx.data = true →
      isGlobMatch m.BasePath (HashForKey key)
        (joinPath m.BasePath (HashForKey key) ++ sfx) = true) := by
  refine ⟨?_, ?_, ?_, ?_, ?_⟩
  · intro p hp hne
    simp [Mapper.ScanPathForKey, Mapper.GetPath, hp, hne]
  · intro hnone hbase
    simp [Mapper.ScanPathForKey, Mapper.GetPath, hnone, hbase]
  · intro hnone hbase hglob
    simp [Mapper.ScanPathForKey, Mapper.GetPath, hnone, hbase, hglob]
  · intro p rest hnone hbase hglob
    simp [Mapper.ScanPathForKey, Mapper.GetPath, hnone, hbase, hglob,
      alookup_append_self key m.attachments p hnone]
  · intro sfx hsep
    simp only [isGlobMatch, String.data_append, Bool.and_eq_true]
    constructor
    · rw [List.isPrefixOf_iff_prefix]
      exact List.prefix_append _ _
    · rw [List.drop_left]
      exact hsep

theorem ScanPathForKey_spec_witness :
    ((Mapper.ScanPathForKey fs5 m5 "k5").1 =
       .ok (joinPath "base" (HashForKey "k5" ++ ".jpg")) ∧
     alookup "k5" (Mapper.ScanPathForKey fs5 m5 "k5").2.attachments =
       some (joinPath "base" (HashForKey "k5" ++ ".jpg"))) ∧
    Mapper.ScanPathForKey [] mW "k1" = (.ok "p1", mW) :=
  ⟨(ScanPathForKey_spec fs5 m5 "k5").2.2.2.1 _ [] rfl (by decide) (by decide),
   (ScanPathForKey_spec [] mW "k1").1 "p1" rfl (by decide)⟩

theorem alookup_map_replace {α : Type} (k : String) (v : α) (l : List (String × α))
    (key : String) :
    alookup key (l.map (fun kv => if kv.1 = k then (k, v) else kv)) =
      if key = k then Option.map (fun _ => v) (alookup key l) else alookup key l := by
  induction l with
  | nil => by_cases hk : key = k <;> simp [alookup, hk]
  | cons kv rest ih =>
    obtain ⟨k2, u⟩ := kv
    rw [List.map_cons]
    by_cases h2 : k2 = k
    · subst h2
      rw [show (if (k2, u).1 = k2 then (k2, v) else (k2, u)) = (k2, v) from if_pos rfl]
      by_cases hk : k2 = key
      · subst hk
        simp [alookup]
      · simp [alookup, hk, ih]
    · rw [show (if (k2, u).1 = k then (k, v) else (k2, u)) = (k2, u) from if_neg h2]
      by_cases hk : k2 = key
      · subst hk
        have hne : ¬ k2 = k := h2
        simp [alookup, hne]
      · simp [alookup, hk, ih]

theorem alookup_astore_self {α : Type} (l : List (String × α)) (k : String) (v : α) :
    alookup k (astore l k v) = some v := by
  unfold astore
  cases h : alookup k l with
  | none => simp [h, alookup_append_self k l v h]
  | some w => simp [h, alookup_map_replace]

theorem alookup_astore_other {α : Type} (l : List (String × α)) (k key : String) (v : α)
    (hne : key ≠ k) : alookup key (astore l k v) = alookup key l := by
  unfold astore
  cases h : alookup k l with
  | none =>
    simp only [h, Option.isSome_none, Bool.false_eq_true, if_false]
    rw [alookup_append]
    cases h2 : alookup key l with
    | none =>
      rw [alookup, if_neg (fun h3 => hne h3.symm)]
      simp [h2, alookup]
    | some w => simp
  | some w => simp [alookup_map_replace, hne]

theorem alookup_none_of_not_mem {α : Type} (k : String) (l : List (String × α))
    (h : k ∉ l.map Prod.fst) : alookup k l = none := by
  induction l with
  | nil => rfl
  | cons kv rest ih =>
    obtain ⟨k2, u⟩ := kv
    simp only [List.map_cons, List.mem_cons, not_or] at h
    rw [alookup, if_neg (fun h2 => h.1 h2.symm)]
    exact ih h.2

/-- Processing a nodup snapshot document through `LoadFromJSON` succeeds
when no entry's path stats as a hard error, and merges exactly the entries
whose path is present. -/
theorem LoadFromJSON_ok (stat : String → StatRes) (doc : List (String × String))
    (hnodup : (doc.map Prod.fst).Nodup)
    (hstat : ∀ kv ∈ doc, stat kv.2 ≠ .errOther) :
    ∀ acc : Mapper, ∃ m2, Mapper.LoadFromJSON stat acc doc = .ok m2 ∧
      m2.BasePath = acc.BasePath ∧ m2.Overwrite = acc.Overwrite ∧
      ∀ key, alookup key m2.attachments =
        match alookup key doc with
        | some v => if stat v = .found then some v else alookup key acc.attachments
        | none => alookup key acc.attachments := by
  induction doc with
  | nil =>
    intro acc
    exact ⟨acc, rfl, rfl, rfl, fun key => by simp [alookup]⟩
  | cons kv rest ih =>
    intro acc
    obtain ⟨k, v⟩ := kv
    simp only [List.map_cons, List.nodup_cons] at hnodup
    have hrest : ∀ kv ∈ rest, stat kv.2 ≠ .errOther :=
      fun kv hm => hstat kv (List.mem_cons_of_mem _ hm)
    have hknone : alookup k rest = none := alookup_none_of_not_mem k rest hnodup.1
    cases hs : stat v with
    | errOther => exact absurd hs (hstat (k, v) (List.mem_cons_self _ _))
    | missing =>
      obtain ⟨m2, hload, hbp, hov, hlook⟩ := ih hnodup.2 hrest acc
      refine ⟨m2, ?_, hbp, hov, fun key => ?_⟩
      · simp [Mapper.LoadFromJSON, hs, hload]
      · rw [hlook key]
        by_cases hk : k = key
        · subst hk
          simp [alookup, hknone, hs]
        · simp [alookup, hk]
    | found =>
      obtain ⟨m2, hload, hbp, hov, hlook⟩ :=
        ih hnodup.2 hrest { acc with attachments := astore acc.attachments k v }
      refine ⟨m2, ?_, hbp, hov, fun key => ?_⟩
      · simp [Mapper.LoadFromJSON, hs, hload]
      · rw [hlook key]
        by_cases hk : k = key
        · subst hk
          simp [alookup, hknone, hs, alookup_astore_self]
        · have : key ≠ k := fun h => hk h.symm
          rw [alookup, if_neg hk]
          cases h2 : alookup key rest <;>
            simp [alookup_astore_other acc.attachments k key v this]

/-- C6: the snapshot round-trip — `SaveToJSON` then `LoadFromJSON` into a
fresh store — succeeds (the load is not aborted) and reproduces the
key-to-path mapping exactly for every entry whose path still exists,
while entries whose file no longer exists are dropped. -/
theorem snapshot_roundtrip (stat : String → StatRes) (m fresh : Mapper)
    (hfresh : fresh.attachments = [])
    (hnodup : (m.attachments.map Prod.fst).Nodup)
    (hstat : ∀ kv ∈ m.attachments, stat kv.2 ≠ .errOther) :
    ∃ m2, Mapper.LoadFromJSON stat fresh (Mapper.SaveToJSON m) = .ok m2 ∧
      ∀ key, alookup key m2.attachments =
        match alookup key m.attachments with
        | some v => if stat v = .found then some v else none
        | none => none := by
  obtain ⟨m2, hload, _, _, hlook⟩ := LoadFromJSON_ok stat m.attachments hnodup hstat fresh
  refine ⟨m2, hload, fun key => ?_⟩
  rw [hlook key, hfresh]
  cases alookup key m.attachments with
  | none => simp [alookup]
  | some v => simp [alookup]

theorem snapshot_roundtrip_witness :
    ∃ m2, Mapper.LoadFromJSON statW freshW (Mapper.SaveToJSON mW) = .ok m2 ∧
      ∀ key, alookup key m2.attachments =
        match alookup key mW.attachments with
        | some v => if statW v = .found then some v else none
        | none => none :=
  snapshot_roundtrip statW mW freshW rfl (by decide) (by decide)

theorem OpenWriter_error_paths_keep_mapping_witness :
    Mapper.Mapped (Mapper.OpenWriter (fun _ => StatRes.found)
        ⟨"base", false, []⟩ "k" "").2 "k" = true ∧
    Mapper.GetPath (Mapper.OpenWriter (fun _ => StatRes.found)
        ⟨"base", false, []⟩ "k" "").2 "k" = joinPath "base" (destName "k" "") ∧
    (Mapper.OpenWriter (fun _ => StatRes.found) ⟨"base", false, []⟩ "k" "").1 =
      Except.error .alreadyExists := by
  have h := OpenWriter_error_paths_keep_mapping (fun _ => StatRes.found)
    ⟨"base", false, []⟩ "k" "" (by decide) rfl rfl
  exact ⟨h.1, h.2.1, h.2.2.1 rfl⟩

/-- Running a sequence of entries through `Add` preserves the ordering
invariant on the emitted lines. -/
theorem addAll_chain (es : List EntryKind) :
    ∀ w : BulkImportWriter,
      List.Chain' (fun a b => entryOrd a ≤ entryOrd b) w.lines →
      (∀ x ∈ w.lines, entryOrd x ≤ w.lastIndex) →
      List.Chain' (fun a b => entryOrd a ≤ entryOrd b) (w.addAll es).lines := by
  induction es with
  | nil => intro w hchain _; exact hchain
  | cons e rest ih =>
    intro w hchain hlast
    show List.Chain' _ (((w.Add e).2).addAll rest).lines
    by_cases hlt : containerOrderMap (kindType e) < w.lastIndex
    · rw [show (w.Add e).2 = w by simp [BulkImportWriter.Add, hlt]]
      exact ih w hchain hlast
    · rw [show (w.Add e).2 = ⟨containerOrderMap (kindType e), w.lines ++ [e]⟩ by
        simp [BulkImportWriter.Add, hlt]]
      refine ih _ ?_ ?_
      · rw [List.chain'_append]
        refine ⟨hchain, List.chain'_singleton e, fun x hx y hy => ?_⟩
        simp only [List.head?_cons, Option.mem_def, Option.some.injEq] at hy
        subst hy
        have hx2 := hlast x (List.mem_of_getLast?_eq_some hx)
        show entryOrd x ≤ entryOrd e
        unfold entryOrd at hx2 ⊢
        omega
      · intro x hx
        show entryOrd x ≤ containerOrderMap (kindType e)
        rcases List.mem_append.mp hx with hx2 | hx2
        · have h3 := hlast x hx2
          unfold entryOrd at h3 ⊢
          omega
        · simp only [List.mem_singleton] at hx2
          subst hx2
          exact le_refl _

/-- C3: `BulkImportWriter.Add` resolves the record's ordinal in the fixed
container order (whose induced order on the observable kinds is version,
team, channel, user, post); an ordinal strictly below the running
`lastIndex` yields an ordering-violation error naming the two conflicting
kinds and leaves the output stream untouched; otherwise `lastIndex`
advances to the ordinal and exactly one line is appended. Consequently the
emitted lines' ordinals are monotonically non-decreasing — equal kinds may
repeat, kinds may be skipped but never revisited. -/
theorem BulkImportWriter_Add_spec :
    (containerOrderMap "version" < containerOrderMap "team" ∧
     containerOrderMap "team" < containerOrderMap "channel" ∧
     containerOrderMap "channel" < containerOrderMap "user" ∧
     containerOrderMap "user" < containerOrderMap "post") ∧
    (∀ (w : BulkImportWriter) (e : EntryKind),
      containerOrderMap (kindType e) < w.lastIndex →
      (w.Add e).1 = some (containerOrder.getD (containerOrderMap (kindType e)) "",
                          containerOrder.getD w.lastIndex "") ∧
      (w.Add e).2 = w) ∧
    (∀ (w : BulkImportWriter) (e : EntryKind),
      ¬ containerOrderMap (kindType e) < w.lastIndex →
      (w.Add e).1 = none ∧
      (w.Add e).2 = ⟨containerOrderMap (kindType e), w.lines ++ [e]⟩) ∧
    (∀ es : List EntryKind,
      List.Chain' (fun a b => entryOrd a ≤ entryOrd b) (NewWriter.addAll es).lines) := by
  refine ⟨by decide, ?_, ?_, ?_⟩
  · intro w e hlt
    constructor <;> simp [BulkImportWriter.Add, hlt]
  · intro w e hge
    constructor <;> simp [BulkImportWriter.Add, hge]
  · intro es
    exact addAll_chain es NewWriter List.chain'_nil (by intro x hx; cases hx)

theorem BulkImportWriter_Add_spec_witness :
    (((⟨5, [EntryKind.post]⟩ : BulkImportWriter).Add EntryKind.user).1 =
       some ("user", "post") ∧
     ((⟨5, [EntryKind.post]⟩ : BulkImportWriter).Add EntryKind.user).2 =
       (⟨5, [EntryKind.post]⟩ : BulkImportWriter)) ∧
    ((NewWriter.Add EntryKind.team).1 = none ∧
     (NewWriter.Add EntryKind.team).2 = ⟨2, [EntryKind.team]⟩) ∧
    List.Chain' (fun a b => entryOrd a ≤ entryOrd b)
      (NewWriter.addAll [EntryKind.version, EntryKind.team, EntryKind.post]).lines :=
  ⟨BulkImportWriter_Add_spec.2.1 ⟨5, [EntryKind.post]⟩ EntryKind.user (by decide),
   BulkImportWriter_Add_spec.2.2.1 NewWriter EntryKind.team (by decide),
   BulkImportWriter_Add_spec.2.2.2 [EntryKind.version, EntryKind.team, EntryKind.post]⟩

/-- C4: when `OpenWriter` reports the `Exists` (AlreadyExists) sentinel on
a fetch attempt whose response is otherwise acceptable, `tryDownloadURL`
treats it as a no-op success: it returns no error, writes no bytes (the
filesystem is unchanged), and `downloadURL` therefore stops at this
candidate instead of treating the item as failed and trying further
candidates. -/
theorem tryDownloadURL_alreadyExists_noop
    (r : Resp) (st : DlState) (key : String)
    (hstatus : r.statusCode = 200) (hmt : r.mediaType ≠ "text/html")
    (hex : (Mapper.OpenWriter (fsStat st.files) st.mapper key r.mediaType).1 =
      Except.error .alreadyExists) :
    (tryDownloadURL (some r) st key).1 = none ∧
    (tryDownloadURL (some r) st key).2.files = st.files ∧
    (∀ (resps : String → Option Resp) (u : String) (rest : List String),
      resps u = some r →
      downloadURL resps st key (u :: rest) =
        (true, (tryDownloadURL (some r) st key).2)) := by
  have hW := hex
  rcases hOW : Mapper.OpenWriter (fsStat st.files) st.mapper key r.mediaType with ⟨res, m2⟩
  rw [hOW] at hW
  simp only at hW
  subst hW
  have hmain : tryDownloadURL (some r) st key = (none, { st with mapper := m2 }) := by
    simp [tryDownloadURL, hstatus, hmt, hOW]
  refine ⟨by rw [hmain], by rw [hmain], fun resps u rest hu => ?_⟩
  simp [downloadURL, hu, hmain]

theorem tryDownloadURL_alreadyExists_noop_witness :
    (tryDownloadURL (some r4) st4 "k").1 = none ∧
    (tryDownloadURL (some r4) st4 "k").2.files = st4.files ∧
    downloadURL (fun _ => some r4) st4 "k" ["u", "u2"] =
      (true, (tryDownloadURL (some r4) st4 "k").2) := by
  have h := tryDownloadURL_alreadyExists_noop r4 st4 "k" rfl (by decide) rfl
  exact ⟨h.1, h.2.1, h.2.2 (fun _ => some r4) "u" ["u2"] rfl⟩

/-- C8: `ImageDownloader.Add` returns false with nothing scheduled when the
store scan already resolves a path for the key; returns false with nothing
scheduled when no candidate URLs are available; otherwise, with a free
concurrency slot it occupies the slot, schedules the fetch and returns
true, and with all `concurrency` slots in use the call blocks (modelled as
`none`: it cannot complete, and nothing has been scheduled). -/
theorem ImageDownloader_Add_spec (d : ImageDownloader) (key : String) (urls : List String) :
    ((∃ p, (Mapper.ScanPathForKey (fsPaths d.files) d.mapper key).1 = .ok p) →
      d.Add key urls =
        some (false,
          { d with mapper := (Mapper.ScanPathForKey (fsPaths d.files) d.mapper key).2 })) ∧
    ((Mapper.ScanPathForKey (fsPaths d.files) d.mapper key).1 = .error .notFound →
      urls = [] →
      d.Add key urls =
        some (false,
          { d with mapper := (Mapper.ScanPathForKey (fsPaths d.files) d.mapper key).2 })) ∧
    ((Mapper.ScanPathForKey (fsPaths d.files) d.mapper key).1 = .error .notFound →
      urls ≠ [] → d.inFlight < d.concurrency →
      d.Add key urls =
        some (true,
          { d with mapper := (Mapper.ScanPathForKey (fsPaths d.files) d.mapper key).2,
                   inFlight := d.inFlight + 1,
                   pending := d.pending ++ [(key, urls)] })) ∧
    ((Mapper.ScanPathForKey (fsPaths d.files) d.mapper key).1 = .error .notFound →
      urls ≠ [] → ¬ d.inFlight < d.concurrency →
      d.Add key urls = none) := by
  rcases hscan : Mapper.ScanPathForKey (fsPaths d.files) d.mapper key with ⟨res, m2⟩
  refine ⟨?_, ?_, ?_, ?_⟩
  · rintro ⟨p, hp⟩
    simp only at hp
    subst hp
    simp [ImageDownloader.Add, hscan]
  · intro hp hurls
    simp only at hp
    subst hp
    simp [ImageDownloader.Add, hscan, hurls]
  · intro hp hurls hslot
    simp only at hp
    subst hp
    simp [ImageDownloader.Add, hscan, hurls, hslot]
  · intro hp hurls hslot
    simp only at hp
    subst hp
    simp [ImageDownloader.Add, hscan, hurls, hslot]

theorem ImageDownloader_Add_spec_witness :
    ImageDownloader.Add d9 "k" ["u"] =
      some (true,
        { d9 with mapper := (Mapper.ScanPathForKey (fsPaths d9.files) d9.mapper "k").2,
                  inFlight := 1, pending := [("k", ["u"])] }) ∧
    ImageDownloader.Add d9 "k" [] =
      some (false,
        { d9 with mapper := (Mapper.ScanPathForKey (fsPaths d9.files) d9.mapper "k").2 }) := by
  constructor
  · exact (ImageDownloader_Add_spec d9 "k" ["u"]).2.2.1 rfl (by decide) (by decide)
  · exact (ImageDownloader_Add_spec d9 "k" []).2.1 rfl rfl

/-- C9 (amended): candidate URLs are tried in order — a request failure, a
final non-200 status or a `text/html` media type is a failure for that one
URL, after which the next candidate is tried; when every candidate fails
this way the item is abandoned with only a logged error, no entry is
stored for it and the state is unchanged. No failure is recorded, so
nothing marks the item against future submission. -/
theorem downloadURL_candidates_spec (st : DlState) (key : String) :
    (∀ (resps : String → Option Resp) (u : String) (rest : List String) r,
      resps u = some r → r.statusCode ≠ 200 →
      downloadURL resps st key (u :: rest) = downloadURL resps st key rest) ∧
    (∀ (resps : String → Option Resp) (u : String) (rest : List String) r,
      resps u = some r → r.mediaType = "text/html" →
      downloadURL resps st key (u :: rest) = downloadURL resps st key rest) ∧
    (∀ (resps : String → Option Resp) (urls : List String),
      (∀ u ∈ urls, preOpenFailure (resps u) = true) →
      downloadURL resps st key urls = (false, st)) := by
  have hfail : ∀ (o : Option Resp), preOpenFailure o = true →
      tryDownloadURL o st key = ((tryDownloadURL o st key).1, st) ∧
      (tryDownloadURL o st key).1 ≠ none := by
    intro o ho
    cases o with
    | none => exact ⟨rfl, by simp [tryDownloadURL]⟩
    | some r =>
      simp only [preOpenFailure, Bool.or_eq_true, decide_eq_true_eq] at ho
      rcases ho with h | h
      · simp [tryDownloadURL, h]
      · rcases eq_or_ne r.statusCode 200 with h200 | h200
        · simp [tryDownloadURL, h200, h]
        · simp [tryDownloadURL, h200]
  refine ⟨?_, ?_, ?_⟩
  · intro resps u rest r hu h200
    simp [downloadURL, hu, tryDownloadURL, h200]
  · intro resps u rest r hu hhtml
    rcases eq_or_ne r.statusCode 200 with h200 | h200
    · simp [downloadURL, hu, tryDownloadURL, h200, hhtml]
    · simp [downloadURL, hu, tryDownloadURL, h200]
  · intro resps urls hall
    induction urls with
    | nil => rfl
    | cons u rest ih =>
      have hu := hall u (List.mem_cons_self _ _)
      obtain ⟨heq, hne⟩ := hfail (resps u) hu
      rw [downloadURL]
      rcases h1 : (tryDownloadURL (resps u) st key).1 with _ | err
      · exact absurd h1 hne
      · rw [show tryDownloadURL (resps u) st key = (some err, st) by
          rw [heq, h1]]
        exact ih (fun v hv => hall v (List.mem_cons_of_mem _ hv))

theorem downloadURL_candidates_spec_witness :
    downloadURL resps9 ⟨⟨"base", false, []⟩, []⟩ "k" ["u", "u2"] =
      (false, ⟨⟨"base", false, []⟩, []⟩) ∧
    downloadURL resps9 ⟨⟨"base", false, []⟩, []⟩ "k" ["u", "u2"] =
      downloadURL resps9 ⟨⟨"base", false, []⟩, []⟩ "k" ["u2"] := by
  constructor
  · exact (downloadURL_candidates_spec ⟨⟨"base", false, []⟩, []⟩ "k").2.2 resps9
      ["u", "u2"] (by intro u hu; rfl)
  · exact (downloadURL_candidates_spec ⟨⟨"base", false, []⟩, []⟩ "k").1 resps9
      "u" ["u2"] ⟨404, "", true, []⟩ rfl (by decide)

/-- C9 (counterexample to the original claim): after `downloadURL` has
failed on every candidate for a key, nothing records the failure — a later
`Add` (submit) call for the same item schedules the download again and
returns true, so the item is retried by later submit calls. -/
theorem downloadURL_abandoned_item_is_retried :
    downloadURL resps9 ⟨d9.mapper, d9.files⟩ "k" ["u"] =
      (false, ⟨d9.mapper, d9.files⟩) ∧
    ImageDownloader.Add d9 "k" ["u"] =
      some (true, { d9 with inFlight := 1, pending := [("k", ["u"])] }) := by
  constructor
  · rfl
  · rfl

/-- C1 (code bug): a fetch whose HTTP exchange succeeds but whose body
copy fails midway leaves the partially-delivered bytes published at the
final destination path: `tryDownloadURL` returns the copy error, yet its
deferred `w.Close()` renames the half-written temporary file onto the
destination, so the destination holds the partial content instead of
nothing. -/
theorem tryDownloadURL_publishes_truncated_bytes :
    (tryDownloadURL (some bugResp) bugState "photokey").1 = some .copyFailed ∧
    alookup bugDest (tryDownloadURL (some bugResp) bugState "photokey").2.files =
      some [1, 2, 3] := by
  constructor
  · rfl
  · rfl

end HangoutsMigrate
